import Mathlib

/-! Shallow embedding of the mayara radar core: the Furuno protocol codec
    (mayara-core/src/protocol/furuno/command.rs), the live radar state
    (mayara-core/src/state.rs) and the ARPA Doppler state machine
    (mayara-core/src/arpa/doppler.rs).

    Byte buffers are `List Nat`, text lines are `List Char`; Rust i32 / u32 /
    u16 values are `Int` / `Nat` with explicit two's-complement wrapping at
    the places where the Rust code can overflow.  String operations are
    modelled at the char level, which coincides with Rust's byte-level
    slicing on ASCII input (all protocol traffic is ASCII). -/

/-- Rust char::is_whitespace, restricted to the ASCII range
    (0x09..0x0D and 0x20).  All protocol frames are ASCII. -/
def isRustWs (c : Char) : Bool :=
  c.toNat == 0x20 || (0x09 ≤ c.toNat && c.toNat ≤ 0x0D)

/-- Rust str::trim_start on a char list. -/
def trimLeft (l : List Char) : List Char := l.dropWhile isRustWs

/-- Rust str::trim_end on a char list. -/
def trimRight (l : List Char) : List Char := (l.reverse.dropWhile isRustWs).reverse

/-- Rust str::trim on a char list. -/
def trimWs (l : List Char) : List Char := trimRight (trimLeft l)

/-- Rust str::split(sep): always yields at least one (possibly empty) piece;
    `"a,,b"` gives `["a","","b"]`. -/
def splitOnChar (sep : Char) : List Char → List (List Char)
  | [] => [[]]
  | c :: cs =>
    if c = sep then [] :: splitOnChar sep cs
    else
      match splitOnChar sep cs with
      | [] => [[c]]
      | p :: ps => (c :: p) :: ps

/-- Decimal digit test, as in Rust char::to_digit(10) (ASCII 48..57). -/
def isDecDigit (c : Char) : Bool := 48 ≤ c.toNat && c.toNat ≤ 57

/-- Parse a nonempty all-decimal-digit run to its value (unbounded
    accumulator; the i32 range check is applied by the caller, which gives
    the same Ok/Err outcomes as Rust's checked accumulation). -/
def parseNatDigits (l : List Char) : Option Nat :=
  if l.isEmpty then none
  else if l.all isDecDigit then
    some (l.foldl (fun a c => a * 10 + (c.toNat - 48)) 0)
  else none

/-- Rust str::parse::<i32>: optional sign, then decimal digits, with the
    i32 range check. -/
def parseI32 (l : List Char) : Option Int :=
  match l with
  | [] => none
  | c :: rest =>
    if c = '+' then
      (parseNatDigits rest).bind fun n =>
        if n ≤ 2147483647 then some (n : Int) else none
    else if c = '-' then
      (parseNatDigits rest).bind fun n =>
        if n ≤ 2147483648 then some (-(n : Int)) else none
    else
      (parseNatDigits l).bind fun n =>
        if n ≤ 2147483647 then some (n : Int) else none

/-- Hexadecimal digit value, as in Rust char::to_digit(16): ASCII digits,
    lowercase a..f, uppercase A..F. -/
def hexVal (c : Char) : Option Nat :=
  if 48 ≤ c.toNat && c.toNat ≤ 57 then some (c.toNat - 48)
  else if 97 ≤ c.toNat && c.toNat ≤ 102 then some (c.toNat - 97 + 10)
  else if 65 ≤ c.toNat && c.toNat ≤ 70 then some (c.toNat - 65 + 10)
  else none

/-- Parse a nonempty all-hex-digit run to its value. -/
def parseNatHex (l : List Char) : Option Nat :=
  if l.isEmpty then none
  else if l.all (fun c => (hexVal c).isSome) then
    some (l.foldl (fun a c => a * 16 + (hexVal c).getD 0) 0)
  else none

/-- Rust u8::from_str_radix(s, 16): optional sign ('-' admits only the
    value zero for an unsigned type), hex digits, range check 0..=255. -/
def parseU8Hex (l : List Char) : Option Nat :=
  match l with
  | [] => none
  | c :: rest =>
    if c = '+' then
      (parseNatHex rest).bind fun n => if n ≤ 255 then some n else none
    else if c = '-' then
      (parseNatHex rest).bind fun n => if n = 0 then some 0 else none
    else
      (parseNatHex l).bind fun n => if n ≤ 255 then some n else none

/-- CommandMode from command.rs: prefix character of a Furuno frame. -/
inductive CommandMode where
  | Set
  | Request
  | New
deriving DecidableEq

/-- CommandMode::as_char. -/
def CommandMode.asChar : CommandMode → Char
  | .Set => 'S'
  | .Request => 'R'
  | .New => 'N'

/-- The match in parse_response that maps the second frame char to a mode. -/
def charToMode (c : Char) : Option CommandMode :=
  if c = 'S' then some .Set
  else if c = 'R' then some .Request
  else if c = 'N' then some .New
  else none

/-- parse_response from command.rs: trims the line, demands a leading '$'
    and length ≥ 3, reads the mode char, parses the hex command id up to the
    first comma, then splits the remainder on commas, keeping (in order)
    exactly the arguments that parse as i32 and silently skipping the rest. -/
def parse_response (line : List Char) : Option (CommandMode × Nat × List Int) :=
  match trimWs line with
  | '$' :: m :: rest =>
    if rest = [] then none
    else
      match charToMode m with
      | none => none
      | some mode =>
        match parseU8Hex (rest.takeWhile (fun c => c ≠ ',')) with
        | none => none
        | some cmdId =>
          let args :=
            match rest.dropWhile (fun c => c ≠ ',') with
            | [] => []
            | _ :: argstr =>
              (splitOnChar ',' argstr).filterMap fun a => parseI32 (trimWs a)
          some (mode, cmdId, args)
  | _ => none

/-- ControlValue from command.rs. -/
structure ControlValue where
  auto : Bool
  value : Int
deriving DecidableEq

/-- parse_status_response: $N69, first arg 2 means transmitting. -/
def parse_status_response (line : List Char) : Option Bool :=
  match parse_response line with
  | none => none
  | some (mode, cmdId, args) =>
    if mode ≠ CommandMode.New ∨ cmdId ≠ 0x69 then none
    else args.head?.map fun status => status = 2

/-- parse_gain_response: $N63,{auto},{value},... -/
def parse_gain_response (line : List Char) : Option ControlValue :=
  match parse_response line with
  | none => none
  | some (mode, cmdId, args) =>
    if mode ≠ CommandMode.New ∨ cmdId ≠ 0x63 then none
    else
      match args with
      | a0 :: a1 :: _ => some { auto := if a0 = 1 then true else false, value := a1 }
      | _ => none

/-- parse_sea_response: $N64,{auto},{value},... -/
def parse_sea_response (line : List Char) : Option ControlValue :=
  match parse_response line with
  | none => none
  | some (mode, cmdId, args) =>
    if mode ≠ CommandMode.New ∨ cmdId ≠ 0x64 then none
    else
      match args with
      | a0 :: a1 :: _ => some { auto := if a0 = 1 then true else false, value := a1 }
      | _ => none

/-- parse_rain_response: $N65,{auto},{value},... -/
def parse_rain_response (line : List Char) : Option ControlValue :=
  match parse_response line with
  | none => none
  | some (mode, cmdId, args) =>
    if mode ≠ CommandMode.New ∨ cmdId ≠ 0x65 then none
    else
      match args with
      | a0 :: a1 :: _ => some { auto := if a0 = 1 then true else false, value := a1 }
      | _ => none

/-- parse_range_response: $N62,{range_index},... -/
def parse_range_response (line : List Char) : Option Int :=
  match parse_response line with
  | none => none
  | some (mode, cmdId, args) =>
    if mode ≠ CommandMode.New ∨ cmdId ≠ 0x62 then none
    else args.head?

/-- Decimal rendering of a natural number, msd first, with explicit fuel
    (structural recursion so that concrete values reduce by rfl).  With fuel
    n+1 this is exactly Rust's Display for unsigned integers. -/
def natToCharsAux : Nat → Nat → List Char → List Char
  | 0, _, acc => acc
  | fuel + 1, n, acc =>
    if n < 10 then Nat.digitChar n :: acc
    else natToCharsAux fuel (n / 10) (Nat.digitChar (n % 10) :: acc)

/-- Rust Display for a natural number ("0" for zero, no sign, no padding). -/
def natToChars (n : Nat) : List Char := natToCharsAux (n + 1) n []

/-- Rust Display for i32: optional '-' then decimal digits. -/
def intToChars (a : Int) : List Char :=
  if a < 0 then '-' :: natToChars a.natAbs else natToChars a.toNat

/-- Uppercase hex digit (values 0..15), as produced by Rust's {:X}. -/
def hexDigitU (n : Nat) : Char :=
  if n < 10 then Char.ofNat ('0'.toNat + n) else Char.ofNat ('A'.toNat + n - 10)

/-- Rust format!("{:X}", id) for a u8 value: one or two uppercase hex digits,
    no padding. -/
def u8HexChars (n : Nat) : List Char :=
  if n < 16 then [hexDigitU n] else [hexDigitU (n / 16), hexDigitU (n % 16)]

/-- The ",{arg},{arg}..." tail written by the loop in format_command. -/
def argsChars : List Int → List Char
  | [] => []
  | a :: as => ',' :: intToChars a ++ argsChars as

/-- format_command from command.rs: "${mode}{id:X}" then ",{arg}" per
    argument, then CRLF. -/
def format_command (mode : CommandMode) (id : Nat) (args : List Int) : List Char :=
  '$' :: mode.asChar :: (u8HexChars id ++ argsChars args ++ ['\r', '\n'])

/-- format_status_command: $S69,{1|2},0,0,60,300,0 -/
def format_status_command (transmit : Bool) : List Char :=
  format_command .Set 0x69 [if transmit then 2 else 1, 0, 0, 60, 300, 0]

/-- format_range_command: $S62,{index},0,0 -/
def format_range_command (rangeIndex : Int) : List Char :=
  format_command .Set 0x62 [rangeIndex, 0, 0]

/-- format_gain_command: $S63,{auto},{value},0,80,0 -/
def format_gain_command (value : Int) (auto : Bool) : List Char :=
  format_command .Set 0x63 [if auto then 1 else 0, value, 0, 80, 0]

/-- format_sea_command: $S64,{auto},{value},50,0,0,0 -/
def format_sea_command (value : Int) (auto : Bool) : List Char :=
  format_command .Set 0x64 [if auto then 1 else 0, value, 50, 0, 0, 0]

/-- format_rain_command: $S65,{auto},{value},0,0,0,0 -/
def format_rain_command (value : Int) (auto : Bool) : List Char :=
  format_command .Set 0x65 [if auto then 1 else 0, value, 0, 0, 0, 0]

/-- Modelled from the spec: BASE_PORT lives in the furuno module's mod.rs,
    which is not part of the sources here; spec §4.2/§6 ("Login to TCP port
    10000 ... the session's command/report port is 10000+P") and the unit
    test in command.rs (offset 1 gives port 10001) both fix it at 10000. -/
def BASE_PORT : Nat := 10000

/-- LOGIN_RESPONSE_HEADER from command.rs. -/
def LOGIN_RESPONSE_HEADER : List Nat := [0x09, 0x01, 0x00, 0x0c, 0x01, 0x00, 0x00, 0x00]

/-- parse_login_response from command.rs.  Bytes are Nat < 256; the u16 sum
    BASE_PORT + offset is wrapped mod 2^16 exactly where the Rust u16
    addition can overflow. -/
def parse_login_response (data : List Nat) : Option Nat :=
  if data.length < 12 then none
  else if data.take 8 ≠ LOGIN_RESPONSE_HEADER then none
  else some ((BASE_PORT + ((data.getD 8 0) * 256 + data.getD 9 0)) % 65536)

/-- RANGE_TABLE from command.rs: (wire index, meters), in source order. -/
def RANGE_TABLE : List (Int × Int) :=
  [(21, 116), (0, 231), (1, 463), (2, 926), (3, 1389), (4, 1852), (5, 2778),
   (6, 3704), (7, 5556), (8, 7408), (9, 11112), (10, 14816), (11, 22224),
   (12, 29632), (13, 44448), (14, 59264), (19, 66672), (15, 88896)]

/-- range_index_to_meters: first table entry with the given wire index. -/
def range_index_to_meters (index : Int) : Option Int :=
  (RANGE_TABLE.find? fun p => p.1 = index).map fun p => p.2

/-- Two's-complement wrap of an Int into the i32 range. -/
def i32wrap (x : Int) : Int := (x + 2147483648) % 4294967296 - 2147483648

/-- Rust i32::abs with release (wrapping) semantics: abs of i32::MIN is
    i32::MIN again. -/
def i32abs (x : Int) : Int := i32wrap |x|

/-- Rust Iterator::min_by_key: the first element with minimal key. -/
def minByKeyFirst (key : α → Int) : List α → Option α
  | [] => none
  | x :: xs => some (xs.foldl (fun best y => if key y < key best then y else best) x)

/-- meters_to_range_index from command.rs: first table entry minimising the
    i32 value |meters_entry - meters| (wrapping i32 subtraction and abs),
    defaulting to index 4. -/
def meters_to_range_index (meters : Int) : Int :=
  match minByKeyFirst (fun p => i32abs (i32wrap (p.2 - meters))) RANGE_TABLE with
  | some p => p.1
  | none => 4

/-- PowerState from state.rs. -/
inductive PowerState where
  | Off
  | Standby
  | Transmit
  | Warming
deriving DecidableEq

/-- ControlValueState from state.rs: API-facing mode string plus value. -/
structure ControlValueState where
  mode : String
  value : Int
deriving DecidableEq

/-- From<ParsedControlValue> for ControlValueState. -/
def ControlValueState.ofParsed (cv : ControlValue) : ControlValueState :=
  { mode := if cv.auto then "auto" else "manual", value := cv.value }

/-- RadarState from state.rs (the fields touched by report parsing). -/
structure RadarState where
  power : PowerState
  range : Nat
  gain : ControlValueState
  sea : ControlValueState
  rain : ControlValueState
  timestamp : Option Nat
deriving DecidableEq

/-- RadarState::new / the derived Default: power Off, range 0, controls
    auto/50, no timestamp. -/
def RadarState.new : RadarState :=
  { power := .Off, range := 0,
    gain := { mode := "auto", value := 50 },
    sea := { mode := "auto", value := 50 },
    rain := { mode := "auto", value := 50 },
    timestamp := none }

/-- RadarState::update_from_response, as a pure function returning the
    bool result together with the post state.  The table meters are
    nonnegative i32s, so the `as u32` cast is the wrap below. -/
def RadarState.update_from_response (s : RadarState) (line : List Char) :
    Bool × RadarState :=
  match parse_status_response line with
  | some transmitting =>
    (true, { s with power := if transmitting then .Transmit else .Standby })
  | none =>
  match parse_gain_response line with
  | some cv => (true, { s with gain := ControlValueState.ofParsed cv })
  | none =>
  match parse_sea_response line with
  | some cv => (true, { s with sea := ControlValueState.ofParsed cv })
  | none =>
  match parse_rain_response line with
  | some cv => (true, { s with rain := ControlValueState.ofParsed cv })
  | none =>
  match parse_range_response line with
  | some rangeIndex =>
    match range_index_to_meters rangeIndex with
    | some meters => (true, { s with range := (meters % 4294967296).toNat })
    | none => (false, s)
  | none => (false, s)

/-- DopplerState from arpa/doppler.rs. -/
inductive DopplerState where
  | Any
  | NoDoppler
  | Approaching
  | Receding
  | AnyDoppler
  | NotReceding
  | NotApproaching
  | AnyPlus
deriving DecidableEq

/-- DopplerState::transition.  The Rust thresholds are
    `(total_pix as f64 * 0.85) as u32` and
    `((total_pix - x_pix) as f64 * 0.80) as u32`; for every u32 input these
    f64 products truncate to exactly ⌊85·t/100⌋ and ⌊80·(t−x)/100⌋ (the
    rounding error of the nearest doubles to 0.85 and 0.80 is far below the
    0.05 gap between the exact products and the neighbouring integers, and
    at exact integer products the rounded result stays on the correct side
    of the truncation), so the thresholds are embedded as Nat division.
    The u32 subtractions total - approaching / total - receding require
    x ≤ total, which the theorems assume. -/
def DopplerState.transition (s : DopplerState)
    (totalPix approachingPix recedingPix : Nat) : DopplerState :=
  let checkToDoppler := 85 * totalPix / 100
  let checkNotApproaching := 80 * (totalPix - approachingPix) / 100
  let checkNotReceding := 80 * (totalPix - recedingPix) / 100
  match s with
  | .AnyDoppler | .Any =>
    if approachingPix > recedingPix ∧ approachingPix > checkToDoppler then
      .Approaching
    else if recedingPix > approachingPix ∧ recedingPix > checkToDoppler then
      .Receding
    else if s = .AnyDoppler then .Any
    else s
  | .Receding => if recedingPix < checkNotApproaching then .Any else s
  | .Approaching => if approachingPix < checkNotReceding then .Any else s
  | _ => s

/-- DopplerState::matches_pixel. -/
def DopplerState.matches_pixel (s : DopplerState)
    (isTarget isBackup isApproaching isReceding : Bool) : Bool :=
  match s with
  | .Any => isTarget
  | .NoDoppler => isTarget && !isApproaching && !isReceding
  | .Approaching => isApproaching
  | .Receding => isReceding
  | .AnyDoppler => isApproaching || isReceding
  | .NotReceding => isTarget && !isReceding
  | .NotApproaching => isTarget && !isApproaching
  | .AnyPlus => isBackup

/-- The 18 supported Furuno ranges in meters (the meters column of
    RANGE_TABLE), as u32 values. -/
def SUPPORTED_RANGES : List Nat :=
  [116, 231, 463, 926, 1389, 1852, 2778, 3704, 5556, 7408, 11112, 14816,
   22224, 29632, 44448, 59264, 66672, 88896]

/-- The gain/sea/rain 0..100 invariant of spec §3 / §8 on a RadarState. -/
def RadarStateValueInv (s : RadarState) : Prop :=
  (0 ≤ s.gain.value ∧ s.gain.value ≤ 100) ∧
  (0 ≤ s.sea.value ∧ s.sea.value ≤ 100) ∧
  (0 ≤ s.rain.value ∧ s.rain.value ≤ 100)

theorem dropWhile_eq_self_of_not {p : Char → Bool} {l : List Char}
    (h : ∀ c ∈ l, p c = false) : l.dropWhile p = l := by
  cases l with
  | nil => rfl
  | cons c cs => simp [List.dropWhile_cons, h c (by simp)]

theorem trimWs_eq_self {l : List Char} (h : ∀ c ∈ l, isRustWs c = false) :
    trimWs l = l := by
  unfold trimWs trimLeft trimRight
  rw [dropWhile_eq_self_of_not h]
  rw [dropWhile_eq_self_of_not (fun c hc => h c (List.mem_reverse.mp hc))]
  exact List.reverse_reverse l

theorem trimWs_append_crlf {l : List Char} (h : ∀ c ∈ l, isRustWs c = false) :
    trimWs (l ++ ['\r', '\n']) = l := by
  cases l with
  | nil => decide
  | cons c cs =>
    unfold trimWs trimLeft trimRight
    have hc : isRustWs c = false := h c (by simp)
    rw [List.cons_append, List.dropWhile_cons, hc]
    simp only [Bool.false_eq_true, if_false]
    have hrev : (c :: (cs ++ ['\r', '\n'])).reverse = '\n' :: '\r' :: (c :: cs).reverse := by
      simp
    rw [hrev]
    rw [List.dropWhile_cons, show isRustWs '\n' = true from rfl]
    simp only [if_true]
    rw [List.dropWhile_cons, show isRustWs '\r' = true from rfl]
    simp only [if_true]
    rw [dropWhile_eq_self_of_not (fun d hd => h d (List.mem_reverse.mp hd))]
    exact List.reverse_reverse (c :: cs)

theorem takeWhile_append_of_all {p : Char → Bool} {l1 l2 : List Char}
    (h : ∀ c ∈ l1, p c = true) :
    (l1 ++ l2).takeWhile p = l1 ++ l2.takeWhile p := by
  induction l1 with
  | nil => simp
  | cons c cs ih =>
    simp only [List.cons_append, List.takeWhile_cons, h c (by simp), if_true]
    rw [ih (fun d hd => h d (by simp [hd]))]

theorem dropWhile_append_of_all {p : Char → Bool} {l1 l2 : List Char}
    (h : ∀ c ∈ l1, p c = true) :
    (l1 ++ l2).dropWhile p = l2.dropWhile p := by
  induction l1 with
  | nil => simp
  | cons c cs ih =>
    simp only [List.cons_append, List.dropWhile_cons, h c (by simp)]
    exact ih (fun d hd => h d (by simp [hd]))

theorem splitOnChar_ne_nil (sep : Char) (l : List Char) : splitOnChar sep l ≠ [] := by
  cases l with
  | nil => simp [splitOnChar]
  | cons c cs =>
    simp only [splitOnChar]
    split
    · simp
    · split <;> simp

theorem splitOnChar_of_not_mem {sep : Char} {l : List Char} (h : sep ∉ l) :
    splitOnChar sep l = [l] := by
  induction l with
  | nil => rfl
  | cons c cs ih =>
    have hc : ¬ c = sep := fun hcs => h (hcs ▸ List.mem_cons_self c cs)
    have ihcs := ih (fun hm => h (List.mem_cons_of_mem c hm))
    simp only [splitOnChar, if_neg hc, ihcs]

theorem splitOnChar_append_sep {sep : Char} {l1 : List Char} (l2 : List Char)
    (h : sep ∉ l1) :
    splitOnChar sep (l1 ++ sep :: l2) = l1 :: splitOnChar sep l2 := by
  induction l1 with
  | nil => simp [splitOnChar]
  | cons c cs ih =>
    have hc : ¬ c = sep := fun hcs => h (hcs ▸ List.mem_cons_self c cs)
    have ihcs := ih (fun hm => h (List.mem_cons_of_mem c hm))
    simp only [List.cons_append, splitOnChar, if_neg hc, List.append_eq, ihcs]

theorem mem_of_mem_splitOnChar {sep : Char} {l : List Char} {p : List Char} {c : Char}
    (hp : p ∈ splitOnChar sep l) (hc : c ∈ p) : c ∈ l := by
  induction l generalizing p with
  | nil =>
    simp only [splitOnChar, List.mem_singleton] at hp
    subst hp
    simp at hc
  | cons d ds ih =>
    simp only [splitOnChar] at hp
    by_cases hd : d = sep
    · rw [if_pos hd] at hp
      rcases List.mem_cons.mp hp with h1 | h1
      · subst h1; simp at hc
      · exact List.mem_cons_of_mem d (ih h1 hc)
    · rw [if_neg hd] at hp
      rcases hsplit : splitOnChar sep ds with _ | ⟨q, qs⟩
      · exact absurd hsplit (splitOnChar_ne_nil sep ds)
      · rw [hsplit] at hp
        rcases List.mem_cons.mp hp with h1 | h1
        · subst h1
          rcases List.mem_cons.mp hc with h2 | h2
          · subst h2; exact List.mem_cons_self c ds
          · exact List.mem_cons_of_mem d (ih (hsplit ▸ List.mem_cons_self q qs) h2)
        · exact List.mem_cons_of_mem d (ih (hsplit ▸ List.mem_cons_of_mem q h1) hc)

theorem filterMap_map_eq_self {α β : Type} {f : α → β} {g : β → Option α} {l : List α}
    (h : ∀ a ∈ l, g (f a) = some a) : (l.map f).filterMap g = l := by
  induction l with
  | nil => rfl
  | cons a as ih =>
    simp only [List.map_cons, List.filterMap_cons, h a (by simp)]
    rw [ih (fun x hx => h x (by simp [hx]))]

theorem filterMap_congr_mem {α β : Type} {f g : α → Option β} {l : List α}
    (h : ∀ a ∈ l, f a = g a) : l.filterMap f = l.filterMap g := by
  induction l with
  | nil => rfl
  | cons a as ih =>
    simp only [List.filterMap_cons, h a (by simp)]
    rw [ih (fun x hx => h x (by simp [hx]))]

theorem decDigit_facts {c : Char} (h : isDecDigit c = true) :
    isRustWs c = false ∧ c ≠ ',' ∧ c ≠ '+' ∧ c ≠ '-' := by
  simp only [isDecDigit, Bool.and_eq_true, decide_eq_true_eq] at h
  refine ⟨?_, ?_, ?_, ?_⟩
  · simp only [isRustWs, Bool.or_eq_false_iff, Bool.and_eq_false_iff]
    constructor
    · simp only [beq_eq_false_iff_ne, ne_eq]; omega
    · right; simp only [decide_eq_false_iff_not, not_le]; omega
  · intro hc; subst hc; revert h; decide
  · intro hc; subst hc; revert h; decide
  · intro hc; subst hc; revert h; decide

theorem digitChar_spec : ∀ d, d < 10 →
    isDecDigit (Nat.digitChar d) = true ∧ (Nat.digitChar d).toNat - 48 = d := by
  decide

theorem natToCharsAux_acc (fuel : Nat) :
    ∀ n acc, natToCharsAux fuel n acc = natToCharsAux fuel n [] ++ acc := by
  induction fuel with
  | zero => intro n acc; rfl
  | succ f ih =>
    intro n acc
    by_cases h : n < 10
    · simp [natToCharsAux, h]
    · simp only [natToCharsAux, h, if_false]
      rw [ih (n / 10) (Nat.digitChar (n % 10) :: acc),
        ih (n / 10) [Nat.digitChar (n % 10)]]
      simp

theorem natToCharsAux_spec :
    ∀ fuel n, n < 10 ^ fuel →
      (∀ c ∈ natToCharsAux fuel n [], isDecDigit c = true) ∧
      (natToCharsAux fuel n []).foldl (fun a c => a * 10 + (c.toNat - 48)) 0 = n := by
  intro fuel
  induction fuel with
  | zero =>
    intro n h
    have hn : n = 0 := by simpa using h
    subst hn
    exact ⟨by simp [natToCharsAux], rfl⟩
  | succ f ih =>
    intro n h
    by_cases hn : n < 10
    · refine ⟨?_, ?_⟩
      · intro c hc
        simp only [natToCharsAux, if_pos hn, List.mem_singleton] at hc
        subst hc
        exact (digitChar_spec n hn).1
      · simp only [natToCharsAux, if_pos hn, List.foldl_cons, List.foldl_nil]
        have := (digitChar_spec n hn).2
        omega
    · have hdiv : n / 10 < 10 ^ f := by
        have h10 : (10 : Nat) ^ (f + 1) = 10 ^ f * 10 := by ring
        rw [h10] at h
        exact Nat.div_lt_of_lt_mul (by omega)
      have ihd := ih (n / 10) hdiv
      have hrw : natToCharsAux (f + 1) n [] =
          natToCharsAux f (n / 10) [] ++ [Nat.digitChar (n % 10)] := by
        simp only [natToCharsAux, hn, if_false]
        exact natToCharsAux_acc f (n / 10) [Nat.digitChar (n % 10)]
      have hmod := digitChar_spec (n % 10) (Nat.mod_lt n (by omega))
      refine ⟨?_, ?_⟩
      · intro c hc
        rw [hrw] at hc
        rcases List.mem_append.mp hc with h1 | h1
        · exact ihd.1 c h1
        · rw [List.mem_singleton] at h1
          subst h1
          exact hmod.1
      · rw [hrw, List.foldl_append, ihd.2]
        simp only [List.foldl_cons, List.foldl_nil]
        omega

theorem natToChars_digits (n : Nat) : ∀ c ∈ natToChars n, isDecDigit c = true := by
  have hlt : n < 10 ^ (n + 1) := by
    calc n < 10 ^ n := Nat.lt_pow_self (by omega) n
    _ ≤ 10 ^ (n + 1) := Nat.pow_le_pow_right (by omega) (by omega)
  exact (natToCharsAux_spec (n + 1) n hlt).1

theorem natToChars_ne_nil (n : Nat) : natToChars n ≠ [] := by
  unfold natToChars
  by_cases h : n < 10
  · simp [natToCharsAux, h]
  · simp only [natToCharsAux, h, if_false]
    rw [natToCharsAux_acc n (n / 10) [Nat.digitChar (n % 10)]]
    simp

theorem parseNatDigits_natToChars (n : Nat) : parseNatDigits (natToChars n) = some n := by
  have hlt : n < 10 ^ (n + 1) := by
    calc n < 10 ^ n := Nat.lt_pow_self (by omega) n
    _ ≤ 10 ^ (n + 1) := Nat.pow_le_pow_right (by omega) (by omega)
  have hspec := natToCharsAux_spec (n + 1) n hlt
  rw [show natToCharsAux (n + 1) n [] = natToChars n from rfl] at hspec
  unfold parseNatDigits
  rw [if_neg (by simpa [List.isEmpty_iff] using natToChars_ne_nil n)]
  rw [if_pos (List.all_eq_true.mpr fun c hc => hspec.1 c hc)]
  exact congrArg some hspec.2

theorem intToChars_digits (a : Int) :
    ∀ c ∈ intToChars a, isDecDigit c = true ∨ c = '-' := by
  unfold intToChars
  by_cases ha : a < 0
  · rw [if_pos ha]
    intro c hc
    rcases List.mem_cons.mp hc with h1 | h1
    · right; exact h1
    · left; exact natToChars_digits _ c h1
  · rw [if_neg ha]
    intro c hc
    left
    exact natToChars_digits _ c hc

theorem intToChars_no_ws_comma (a : Int) :
    ∀ c ∈ intToChars a, isRustWs c = false ∧ c ≠ ',' := by
  intro c hc
  rcases intToChars_digits a c hc with h | h
  · exact ⟨(decDigit_facts h).1, (decDigit_facts h).2.1⟩
  · subst h; exact ⟨by decide, by decide⟩

theorem parseI32_neg_cons (l : List Char) :
    parseI32 ('-' :: l) =
      (parseNatDigits l).bind fun n => if n ≤ 2147483648 then some (-(n : Int)) else none := by
  simp [parseI32]

theorem parseI32_digit_cons {c : Char} (l : List Char) (h : isDecDigit c = true) :
    parseI32 (c :: l) =
      (parseNatDigits (c :: l)).bind fun n =>
        if n ≤ 2147483647 then some ((n : Int)) else none := by
  have hf := decDigit_facts h
  simp only [parseI32, if_neg hf.2.2.1, if_neg hf.2.2.2]

theorem parseI32_intToChars (a : Int) (h1 : -2147483648 ≤ a) (h2 : a ≤ 2147483647) :
    parseI32 (intToChars a) = some a := by
  by_cases ha : a < 0
  · rw [show intToChars a = '-' :: natToChars a.natAbs from by rw [intToChars, if_pos ha]]
    rw [parseI32_neg_cons, parseNatDigits_natToChars, Option.some_bind,
      if_pos (by omega : a.natAbs ≤ 2147483648)]
    congr 1
    omega
  · rw [show intToChars a = natToChars a.toNat from by rw [intToChars, if_neg ha]]
    rcases hl : natToChars a.toNat with _ | ⟨c, cs⟩
    · exact absurd hl (natToChars_ne_nil a.toNat)
    · have hcd : isDecDigit c = true := natToChars_digits a.toNat c (by rw [hl]; simp)
      rw [parseI32_digit_cons cs hcd, ← hl, parseNatDigits_natToChars, Option.some_bind,
        if_pos (by omega : a.toNat ≤ 2147483647)]
      congr 1
      omega

theorem hexDigitU_facts : ∀ n, n < 16 → isRustWs (hexDigitU n) = false ∧ hexDigitU n ≠ ',' := by
  decide

theorem u8HexChars_ne_nil (id : Nat) : u8HexChars id ≠ [] := by
  unfold u8HexChars
  split <;> simp

theorem u8HexChars_facts (id : Nat) (h : id < 256) :
    ∀ c ∈ u8HexChars id, isRustWs c = false ∧ c ≠ ',' := by
  intro c hc
  unfold u8HexChars at hc
  by_cases h16 : id < 16
  · rw [if_pos h16, List.mem_singleton] at hc
    subst hc
    exact hexDigitU_facts id h16
  · rw [if_neg h16] at hc
    simp only [List.mem_cons, List.not_mem_nil, or_false] at hc
    rcases hc with rfl | rfl
    · exact hexDigitU_facts _ (by omega)
    · exact hexDigitU_facts _ (by omega)

theorem argsChars_no_ws (args : List Int) : ∀ c ∈ argsChars args, isRustWs c = false := by
  induction args with
  | nil => simp [argsChars]
  | cons a as ih =>
    intro c hc
    simp only [argsChars, List.mem_cons, List.mem_append] at hc
    rcases hc with (rfl | hc) | hc
    · decide
    · exact (intToChars_no_ws_comma a c hc).1
    · exact ih c hc

theorem splitOnChar_argsChars (a : Int) (as : List Int) :
    splitOnChar ',' (intToChars a ++ argsChars as) = (a :: as).map intToChars := by
  induction as generalizing a with
  | nil =>
    simp only [argsChars, List.append_nil, List.map_cons, List.map_nil]
    exact splitOnChar_of_not_mem fun hm => (intToChars_no_ws_comma a ',' hm).2 rfl
  | cons b bs ih =>
    have hstep : intToChars a ++ argsChars (b :: bs) =
        intToChars a ++ ',' :: (intToChars b ++ argsChars bs) := by
      simp [argsChars]
    rw [hstep,
      splitOnChar_append_sep _ (fun hm => (intToChars_no_ws_comma a ',' hm).2 rfl), ih b]
    simp

theorem charToMode_asChar (mode : CommandMode) : charToMode mode.asChar = some mode := by
  cases mode <;> rfl

theorem parse_response_format_command (mode : CommandMode) (id : Nat) (args : List Int)
    (h255 : id < 256) (hid : parseU8Hex (u8HexChars id) = some id)
    (hargs : ∀ a ∈ args, -2147483648 ≤ a ∧ a ≤ 2147483647) :
    parse_response (format_command mode id args) = some (mode, id, args) := by
  have hmode_ws : isRustWs mode.asChar = false := by cases mode <;> decide
  have hbody : ∀ c ∈ ('$' :: mode.asChar :: (u8HexChars id ++ argsChars args)),
      isRustWs c = false := by
    intro c hc
    rcases List.mem_cons.mp hc with rfl | hc
    · decide
    rcases List.mem_cons.mp hc with rfl | hc
    · exact hmode_ws
    rcases List.mem_append.mp hc with h1 | h1
    · exact (u8HexChars_facts id h255 c h1).1
    · exact argsChars_no_ws args c h1
  have htrim : trimWs (format_command mode id args) =
      '$' :: mode.asChar :: (u8HexChars id ++ argsChars args) := by
    have hfc : format_command mode id args =
        ('$' :: mode.asChar :: (u8HexChars id ++ argsChars args)) ++ ['\r', '\n'] := by
      simp [format_command]
    rw [hfc, trimWs_append_crlf hbody]
  have hhex := u8HexChars_facts id h255
  have hpred : ∀ c ∈ u8HexChars id, (fun x => decide ¬(x = ',')) c = true := by
    intro c hc
    simpa using (hhex c hc).2
  unfold parse_response
  split
  · rename_i m rest heq
    rw [htrim] at heq
    injection heq with h1 heq
    injection heq with h2 h3
    subst h2
    subst h3
    rw [if_neg (List.append_ne_nil_of_left_ne_nil (u8HexChars_ne_nil id) _)]
    rcases args with _ | ⟨a, as⟩
    · simp only [argsChars, List.append_nil, charToMode_asChar,
        List.takeWhile_eq_self_iff.mpr hpred, hid,
        List.dropWhile_eq_nil_iff.mpr (fun c hc => hpred c hc)]
    · have hac : argsChars (a :: as) = ',' :: (intToChars a ++ argsChars as) := by
        simp [argsChars]
      have htw : List.takeWhile (fun c => decide (c ≠ ','))
          (',' :: (intToChars a ++ argsChars as)) = [] := by
        simp
      have hdw : List.dropWhile (fun c => decide (c ≠ ','))
          (',' :: (intToChars a ++ argsChars as)) =
          ',' :: (intToChars a ++ argsChars as) := by
        simp
      simp only [hac, charToMode_asChar, takeWhile_append_of_all hpred,
        dropWhile_append_of_all hpred, htw, hdw, List.append_nil, hid,
        splitOnChar_argsChars]
      rw [filterMap_map_eq_self (fun x hx => by
        rw [trimWs_eq_self (fun c hc => (intToChars_no_ws_comma x c hc).1)]
        exact parseI32_intToChars x (hargs x hx).1 (hargs x hx).2)]
  · rename_i hne
    exact absurd htrim (hne _ _)

/-- C1 as stated is false: every Furuno command formatter emits a Set-mode
    frame ("$S.."), while every response parser requires mode New ("$N.."),
    so parsing a formatted command yields None, not the original input; shown
    here for the gain pair at value 50, auto=false (the formatter output
    itself is exactly the string documented in the spec). -/
theorem gain_roundtrip_set_mode_counterexample :
    parse_gain_response (format_gain_command 50 false) = none ∧
    format_gain_command 50 false = "$S63,0,50,0,80,0\r\n".toList := by
  constructor <;> decide

/-- C1 (amended): the round-trip holds between each response parser and the
    frame carrying the same command id and argument layout formatted with
    CommandMode::New instead of Set: for every value 0..100 and auto flag the
    gain/sea/rain pairs return the original ControlValue, the status pair
    returns the original transmit flag, and the range pair returns the
    original index over 0..23. -/
theorem furuno_new_mode_roundtrip :
    ∀ v : Int, 0 ≤ v → v ≤ 100 → ∀ a : Bool,
      parse_gain_response
          (format_command .New 0x63 [if a then 1 else 0, v, 0, 80, 0]) =
        some { auto := a, value := v } ∧
      parse_sea_response
          (format_command .New 0x64 [if a then 1 else 0, v, 50, 0, 0, 0]) =
        some { auto := a, value := v } ∧
      parse_rain_response
          (format_command .New 0x65 [if a then 1 else 0, v, 0, 0, 0, 0]) =
        some { auto := a, value := v } ∧
      (∀ t : Bool,
        parse_status_response
            (format_command .New 0x69 [if t then 2 else 1, 0, 0, 60, 300, 0]) =
          some t) ∧
      (∀ idx : Int, 0 ≤ idx → idx ≤ 23 →
        parse_range_response (format_command .New 0x62 [idx, 0, 0]) = some idx) := by
  intro v h0 h1 a
  have hw : (0 : Int) ≤ (if a then 1 else 0) ∧ (if a then (1 : Int) else 0) ≤ 2 := by
    cases a <;> norm_num
  refine ⟨?_, ?_, ?_, ?_, ?_⟩
  · have hpr := parse_response_format_command .New 0x63 [if a then 1 else 0, v, 0, 80, 0]
      (by norm_num) (by decide)
      (by intro x hx
          simp only [List.mem_cons, List.not_mem_nil, or_false] at hx
          rcases hx with rfl | rfl | rfl | rfl | rfl <;> omega)
    simp only [parse_gain_response, hpr]
    cases a <;> simp
  · have hpr := parse_response_format_command .New 0x64 [if a then 1 else 0, v, 50, 0, 0, 0]
      (by norm_num) (by decide)
      (by intro x hx
          simp only [List.mem_cons, List.not_mem_nil, or_false] at hx
          rcases hx with rfl | rfl | rfl | rfl | rfl | rfl <;> omega)
    simp only [parse_sea_response, hpr]
    cases a <;> simp
  · have hpr := parse_response_format_command .New 0x65 [if a then 1 else 0, v, 0, 0, 0, 0]
      (by norm_num) (by decide)
      (by intro x hx
          simp only [List.mem_cons, List.not_mem_nil, or_false] at hx
          rcases hx with rfl | rfl | rfl | rfl | rfl | rfl <;> omega)
    simp only [parse_rain_response, hpr]
    cases a <;> simp
  · intro t
    have hwt : (0 : Int) ≤ (if t then 2 else 1) ∧ (if t then (2 : Int) else 1) ≤ 2 := by
      cases t <;> norm_num
    have hpr := parse_response_format_command .New 0x69 [if t then 2 else 1, 0, 0, 60, 300, 0]
      (by norm_num) (by decide)
      (by intro x hx
          simp only [List.mem_cons, List.not_mem_nil, or_false] at hx
          rcases hx with rfl | rfl | rfl | rfl | rfl | rfl <;> omega)
    simp only [parse_status_response, hpr]
    cases t <;> simp
  · intro idx hi0 hi1
    have hpr := parse_response_format_command .New 0x62 [idx, 0, 0]
      (by norm_num) (by decide)
      (by intro x hx
          simp only [List.mem_cons, List.not_mem_nil, or_false] at hx
          rcases hx with rfl | rfl | rfl <;> omega)
    simp [parse_range_response, hpr]

theorem furuno_new_mode_roundtrip_witness :
    parse_gain_response (format_command .New 0x63 [0, 50, 0, 80, 0]) =
      some { auto := false, value := 50 } ∧
    parse_range_response (format_command .New 0x62 [4, 0, 0]) = some 4 := by
  have h := furuno_new_mode_roundtrip 50 (by norm_num) (by norm_num) false
  exact ⟨h.1, h.2.2.2.2 4 (by norm_num) (by norm_num)⟩

/-- C8: matches_pixel realises the fixed truth table over the four pixel
    flags: Any = is_target; NoDoppler = target without either Doppler bit;
    AnyDoppler = approaching or receding; NotReceding = target and not
    receding; NotApproaching = target and not approaching; AnyPlus = backup;
    including the two concrete AnyDoppler examples from the spec. -/
theorem matches_pixel_truth_table :
    ∀ t b a r : Bool,
      (DopplerState.Any.matches_pixel t b a r = t) ∧
      (DopplerState.NoDoppler.matches_pixel t b a r = (t && !a && !r)) ∧
      (DopplerState.AnyDoppler.matches_pixel t b a r = (a || r)) ∧
      (DopplerState.NotReceding.matches_pixel t b a r = (t && !r)) ∧
      (DopplerState.NotApproaching.matches_pixel t b a r = (t && !a)) ∧
      (DopplerState.AnyPlus.matches_pixel t b a r = b) ∧
      (DopplerState.AnyDoppler.matches_pixel true true false true = true) ∧
      (DopplerState.AnyDoppler.matches_pixel true true false false = false) := by
  decide

/-- C3 is false as stated at the truncation boundary: from Approaching with
    total=101, approaching=80, receding=0 the code compares against the u32
    truncation ⌊0.80·101⌋ = 80 and stays Approaching, although the claim's
    exact condition approaching < 0.80·(total − receding) holds (80 < 80.8),
    so the claimed "exactly when" fails. -/
theorem doppler_transition_boundary_counterexample :
    DopplerState.Approaching.transition 101 80 0 = DopplerState.Approaching ∧
    ((80 : ℚ) < 80 / 100 * (101 - 0)) := by
  constructor
  · decide
  · norm_num

/-- C3 (amended): transition behaves as claimed except that the exits from
    Approaching and Receding compare against the integer truncation
    ⌊0.80·(total − other)⌋ rather than the exact product: from Any or
    AnyDoppler the state becomes Approaching exactly when approaching-pix
    exceeds receding-pix and 0.85·total (an exact comparison, since pix >
    ⌊0.85·total⌋ iff pix > 0.85·total), symmetrically Receding, otherwise
    AnyDoppler falls back to Any and Any stays Any; Approaching exits to Any
    exactly when approaching-pix < ⌊0.80·(total − receding-pix)⌋,
    symmetrically Receding; the remaining states are fixed points. -/
theorem doppler_transition_spec :
    ∀ total approaching receding : Nat,
      approaching ≤ total → receding ≤ total →
      (∀ s : DopplerState, s = .Any ∨ s = .AnyDoppler →
        s.transition total approaching receding =
          (if receding < approaching ∧ (85 : ℚ) / 100 * total < approaching then
            .Approaching
          else if approaching < receding ∧ (85 : ℚ) / 100 * total < receding then
            .Receding
          else if s = .AnyDoppler then .Any
          else s)) ∧
      (DopplerState.Approaching.transition total approaching receding = .Any ↔
        approaching < 80 * (total - receding) / 100) ∧
      (DopplerState.Receding.transition total approaching receding = .Any ↔
        receding < 80 * (total - approaching) / 100) ∧
      (∀ s : DopplerState,
        s = .NoDoppler ∨ s = .NotReceding ∨ s = .NotApproaching ∨ s = .AnyPlus →
        s.transition total approaching receding = s) := by
  intro t a r ha hr
  have hq : ∀ x : Nat, ((85 : ℚ) / 100 * t < x) ↔ (85 * t / 100 < x) := by
    intro x
    rw [div_mul_eq_mul_div, div_lt_iff₀ (by norm_num : (0 : ℚ) < 100)]
    constructor
    · intro h
      rw [Nat.div_lt_iff_lt_mul (by norm_num)]
      exact_mod_cast h
    · intro h
      rw [Nat.div_lt_iff_lt_mul (by norm_num)] at h
      exact_mod_cast h
  refine ⟨?_, ?_, ?_, ?_⟩
  · intro s hs
    rcases hs with rfl | rfl <;> simp only [DopplerState.transition, gt_iff_lt, hq]
  · simp only [DopplerState.transition]
    split_ifs with h
    · simp [h]
    · simp [h]
  · simp only [DopplerState.transition]
    split_ifs with h
    · simp [h]
    · simp [h]
  · intro s hs
    rcases hs with rfl | rfl | rfl | rfl <;> rfl

theorem doppler_transition_spec_witness :
    DopplerState.Any.transition 100 90 5 = DopplerState.Approaching ∧
    DopplerState.Receding.transition 100 5 10 = DopplerState.Any := by
  constructor
  · have h := (doppler_transition_spec 100 90 5 (by norm_num) (by norm_num)).1
      .Any (Or.inl rfl)
    rw [h, if_pos (by norm_num)]
  · exact (doppler_transition_spec 100 5 10 (by norm_num) (by norm_num)).2.2.1.mpr
      (by norm_num)

theorem update_from_response_cases (s : RadarState) (line : List Char) :
    (s.update_from_response line).2 = s ∨
    (∃ tr, parse_status_response line = some tr ∧
      (s.update_from_response line).2 =
        { s with power := if tr then .Transmit else .Standby }) ∨
    (∃ cv, parse_gain_response line = some cv ∧
      (s.update_from_response line).2 = { s with gain := ControlValueState.ofParsed cv }) ∨
    (∃ cv, parse_sea_response line = some cv ∧
      (s.update_from_response line).2 = { s with sea := ControlValueState.ofParsed cv }) ∨
    (∃ cv, parse_rain_response line = some cv ∧
      (s.update_from_response line).2 = { s with rain := ControlValueState.ofParsed cv }) ∨
    (∃ idx meters, parse_range_response line = some idx ∧
      range_index_to_meters idx = some meters ∧
      (s.update_from_response line).2 = { s with range := (meters % 4294967296).toNat }) := by
  cases h1 : parse_status_response line with
  | some tr =>
    right; left
    exact ⟨tr, rfl, by simp [RadarState.update_from_response, h1]⟩
  | none =>
    cases h2 : parse_gain_response line with
    | some cv =>
      right; right; left
      exact ⟨cv, rfl, by simp [RadarState.update_from_response, h1, h2]⟩
    | none =>
      cases h3 : parse_sea_response line with
      | some cv =>
        right; right; right; left
        exact ⟨cv, rfl, by simp [RadarState.update_from_response, h1, h2, h3]⟩
      | none =>
        cases h4 : parse_rain_response line with
        | some cv =>
          right; right; right; right; left
          exact ⟨cv, rfl, by simp [RadarState.update_from_response, h1, h2, h3, h4]⟩
        | none =>
          cases h5 : parse_range_response line with
          | none =>
            left
            simp [RadarState.update_from_response, h1, h2, h3, h4, h5]
          | some idx =>
            cases h6 : range_index_to_meters idx with
            | none =>
              left
              simp [RadarState.update_from_response, h1, h2, h3, h4, h5, h6]
            | some meters =>
              right; right; right; right; right
              exact ⟨idx, meters, rfl, h6,
                by simp [RadarState.update_from_response, h1, h2, h3, h4, h5, h6]⟩

/-- C5 is false as stated: the session port is computed by u16 addition, so
    a port offset above 55535 wraps mod 2^16; at offset 0xFFFF the function
    returns 9999, not 10000 + 65535. -/
theorem parse_login_overflow_counterexample :
    parse_login_response
        [0x09, 0x01, 0x00, 0x0c, 0x01, 0x00, 0x00, 0x00, 0xFF, 0xFF, 0x00, 0x00] =
      some 9999 ∧ (9999 : Nat) ≠ 10000 + 65535 := by
  constructor <;> decide

/-- C5 (amended): for every byte buffer of length ≥ 12 whose first 8 bytes
    equal the fixed header, parse_login_response returns
    Some((10000 + P) mod 2^16) with P the big-endian 16-bit value of bytes
    8–9 — equal to Some(10000 + P) whenever P ≤ 55535 — and returns None for
    shorter buffers or a different header. -/
theorem parse_login_response_spec :
    ∀ data : List Nat, (∀ b ∈ data, b < 256) →
      (data.length < 12 → parse_login_response data = none) ∧
      (data.take 8 ≠ LOGIN_RESPONSE_HEADER → parse_login_response data = none) ∧
      (12 ≤ data.length → data.take 8 = LOGIN_RESPONSE_HEADER →
        parse_login_response data =
          some ((10000 + (data.getD 8 0 * 256 + data.getD 9 0)) % 65536) ∧
        (data.getD 8 0 * 256 + data.getD 9 0 ≤ 55535 →
          parse_login_response data =
            some (10000 + (data.getD 8 0 * 256 + data.getD 9 0)))) := by
  intro data hb
  refine ⟨?_, ?_, ?_⟩
  · intro h
    simp [parse_login_response, h]
  · intro h
    unfold parse_login_response
    by_cases h1 : data.length < 12
    · rw [if_pos h1]
    · rw [if_neg h1, if_pos h]
  · intro hlen hhdr
    have hform : parse_login_response data =
        some ((BASE_PORT + (data.getD 8 0 * 256 + data.getD 9 0)) % 65536) := by
      unfold parse_login_response
      rw [if_neg (by omega), if_neg (by simp [hhdr])]
    refine ⟨hform, ?_⟩
    intro hP
    rw [hform]
    congr 1
    have hlt : BASE_PORT + (data.getD 8 0 * 256 + data.getD 9 0) < 65536 := by
      simp only [BASE_PORT]
      omega
    rw [Nat.mod_eq_of_lt hlt]
    rfl

theorem parse_login_response_spec_witness :
    parse_login_response
        [0x09, 0x01, 0x00, 0x0c, 0x01, 0x00, 0x00, 0x00, 0x00, 0x01, 0x00, 0x00] =
      some 10001 := by
  have h := ((parse_login_response_spec
    [0x09, 0x01, 0x00, 0x0c, 0x01, 0x00, 0x00, 0x00, 0x00, 0x01, 0x00, 0x00]
    (by decide)).2.2 (by decide) (by decide)).2 (by decide)
  simpa using h

/-- C6: a line on which none of the report parsers succeeds (no $N69/$N63/
    $N64/$N65 report with enough integer arguments, and no $N62 report whose
    index is in the range table) makes update_from_response return false and
    leave the state exactly unchanged. -/
theorem update_from_response_unrecognized_noop :
    ∀ (s : RadarState) (line : List Char),
      parse_status_response line = none →
      parse_gain_response line = none →
      parse_sea_response line = none →
      parse_rain_response line = none →
      (parse_range_response line).bind range_index_to_meters = none →
      s.update_from_response line = (false, s) := by
  intro s line h1 h2 h3 h4 h5
  simp only [RadarState.update_from_response, h1, h2, h3, h4]
  cases hr : parse_range_response line with
  | none => rfl
  | some idx =>
    rw [hr, Option.some_bind] at h5
    simp only [h5]

theorem update_from_response_unrecognized_noop_witness :
    RadarState.new.update_from_response "hello".toList = (false, RadarState.new) :=
  update_from_response_unrecognized_noop RadarState.new _
    (by decide) (by decide) (by decide) (by decide) (by decide)

theorem parse_range_response_inversion {line : List Char} {idx : Int}
    (h : parse_range_response line = some idx) :
    ∃ args : List Int,
      parse_response line = some (CommandMode.New, 0x62, args) ∧
      args.head? = some idx := by
  cases hp : parse_response line with
  | none =>
    rw [parse_range_response, hp] at h
    cases h
  | some triple =>
    obtain ⟨mode, cmdId, args⟩ := triple
    have hval : parse_range_response line =
        (if mode ≠ CommandMode.New ∨ cmdId ≠ 0x62 then none else args.head?) := by
      simp only [parse_range_response, hp]
    rw [hval] at h
    by_cases hc : mode ≠ CommandMode.New ∨ cmdId ≠ 0x62
    · rw [if_pos hc] at h; cases h
    · rw [if_neg hc] at h
      push_neg at hc
      obtain ⟨hm, hi⟩ := hc
      subst hm
      subst hi
      exact ⟨args, rfl, h⟩

theorem other_parsers_none_of_range {line : List Char} {args : List Int}
    (hp : parse_response line = some (CommandMode.New, 0x62, args)) :
    parse_status_response line = none ∧ parse_gain_response line = none ∧
    parse_sea_response line = none ∧ parse_rain_response line = none := by
  refine ⟨?_, ?_, ?_, ?_⟩ <;>
    simp [parse_status_response, parse_gain_response, parse_sea_response,
      parse_rain_response, hp]

theorem range_index_to_meters_mem_supported {idx m : Int}
    (h : range_index_to_meters idx = some m) :
    (m % 4294967296).toNat ∈ SUPPORTED_RANGES := by
  unfold range_index_to_meters at h
  cases hf : RANGE_TABLE.find? (fun p => p.1 = idx) with
  | none => rw [hf] at h; cases h
  | some q =>
    rw [hf] at h
    simp only [Option.map_some'] at h
    have hq := List.mem_of_find?_eq_some hf
    injection h with h
    rw [← h]
    fin_cases hq <;> decide

/-- C7: every range change applied through update_from_response results in
    a range that is one of the 18 supported table ranges, and a $N62 report
    whose index is not in the table returns false and changes nothing. -/
theorem update_range_in_supported_table :
    (∀ (s : RadarState) (line : List Char),
      (s.update_from_response line).2.range = s.range ∨
      (s.update_from_response line).2.range ∈ SUPPORTED_RANGES) ∧
    (∀ (s : RadarState) (line : List Char) (idx : Int),
      parse_range_response line = some idx →
      range_index_to_meters idx = none →
      s.update_from_response line = (false, s)) := by
  constructor
  · intro s line
    rcases update_from_response_cases s line with h | ⟨tr, _, h⟩ | ⟨cv, _, h⟩ |
      ⟨cv, _, h⟩ | ⟨cv, _, h⟩ | ⟨idx, meters, _, hm, h⟩ <;> rw [h]
    · left; rfl
    · left; rfl
    · left; rfl
    · left; rfl
    · left; rfl
    · right; exact range_index_to_meters_mem_supported hm
  · intro s line idx h hnone
    obtain ⟨args, hp, hhead⟩ := parse_range_response_inversion h
    obtain ⟨h1, h2, h3, h4⟩ := other_parsers_none_of_range hp
    simp only [RadarState.update_from_response, h1, h2, h3, h4, h, hnone]

theorem update_range_in_supported_table_witness :
    ((RadarState.new.update_from_response "$N62,5,0,0".toList).2.range =
        RadarState.new.range ∨
      (RadarState.new.update_from_response "$N62,5,0,0".toList).2.range ∈
        SUPPORTED_RANGES) ∧
    RadarState.new.update_from_response "$N62,99,0,0".toList =
      (false, RadarState.new) :=
  ⟨update_range_in_supported_table.1 RadarState.new _,
   update_range_in_supported_table.2 RadarState.new _ 99 (by decide) (by decide)⟩

/-- C2 is false as stated: parse_gain_response does not clamp its value and
    update_from_response copies it verbatim, so the report $N63,0,500,0,80,0
    drives gain.value of the (invariant-satisfying) default state to 500,
    outside 0..100. -/
theorem value_invariant_counterexample :
    RadarStateValueInv RadarState.new ∧
    (RadarState.new.update_from_response "$N63,0,500,0,80,0".toList).2.gain.value =
      500 ∧
    ¬ RadarStateValueInv
        (RadarState.new.update_from_response "$N63,0,500,0,80,0".toList).2 := by
  refine ⟨?_, ?_, ?_⟩
  · refine ⟨⟨?_, ?_⟩, ⟨?_, ?_⟩, ⟨?_, ?_⟩⟩ <;> norm_num [RadarState.new]
  · decide
  · intro h
    have h1 := h.1.2
    rw [show (RadarState.new.update_from_response
      "$N63,0,500,0,80,0".toList).2.gain.value = 500 from by decide] at h1
    omega

/-- C2 (amended): the 0..100 invariant on gain/sea/rain holds for the
    default state and is preserved by update_from_response provided every
    gain/sea/rain report parsed from the line carries a value in 0..100;
    the code copies reported values without clamping, so an out-of-range
    report breaks it. -/
theorem update_preserves_value_invariant :
    ∀ (s : RadarState) (line : List Char),
      RadarStateValueInv s →
      (∀ cv, parse_gain_response line = some cv → 0 ≤ cv.value ∧ cv.value ≤ 100) →
      (∀ cv, parse_sea_response line = some cv → 0 ≤ cv.value ∧ cv.value ≤ 100) →
      (∀ cv, parse_rain_response line = some cv → 0 ≤ cv.value ∧ cv.value ≤ 100) →
      RadarStateValueInv (s.update_from_response line).2 := by
  intro s line hs hg hsea hrain
  rcases update_from_response_cases s line with h | ⟨tr, _, h⟩ | ⟨cv, hp, h⟩ |
    ⟨cv, hp, h⟩ | ⟨cv, hp, h⟩ | ⟨idx, meters, _, _, h⟩ <;> rw [h]
  · exact hs
  · exact ⟨hs.1, hs.2.1, hs.2.2⟩
  · exact ⟨by simpa [ControlValueState.ofParsed] using hg cv hp, hs.2.1, hs.2.2⟩
  · exact ⟨hs.1, by simpa [ControlValueState.ofParsed] using hsea cv hp, hs.2.2⟩
  · exact ⟨hs.1, hs.2.1, by simpa [ControlValueState.ofParsed] using hrain cv hp⟩
  · exact ⟨hs.1, hs.2.1, hs.2.2⟩

theorem update_preserves_value_invariant_witness :
    RadarStateValueInv
      (RadarState.new.update_from_response "$N63,0,75,0,80,0".toList).2 := by
  apply update_preserves_value_invariant
  · refine ⟨⟨?_, ?_⟩, ⟨?_, ?_⟩, ⟨?_, ?_⟩⟩ <;> norm_num [RadarState.new]
  · intro cv h
    rw [show parse_gain_response "$N63,0,75,0,80,0".toList =
      some { auto := false, value := 75 } from by decide] at h
    injection h with h
    rw [← h]
    exact ⟨by norm_num, by norm_num⟩
  · intro cv h
    rw [show parse_sea_response "$N63,0,75,0,80,0".toList = none from by decide] at h
    cases h
  · intro cv h
    rw [show parse_rain_response "$N63,0,75,0,80,0".toList = none from by decide] at h
    cases h

theorem update_power_step (s : RadarState) (line : List Char) :
    (s.update_from_response line).2.power = s.power ∨
    (s.update_from_response line).2.power = PowerState.Standby ∨
    (s.update_from_response line).2.power = PowerState.Transmit := by
  rcases update_from_response_cases s line with h | ⟨tr, _, h⟩ | ⟨cv, _, h⟩ |
    ⟨cv, _, h⟩ | ⟨cv, _, h⟩ | ⟨idx, meters, _, _, h⟩ <;> rw [h]
  · left; rfl
  · right
    cases tr
    · left; rfl
    · right; rfl
  · left; rfl
  · left; rfl
  · left; rfl
  · left; rfl

/-- C10: report parsing can never set power to Off or Warming: one update
    leaves power unchanged or sets Standby/Transmit, the same holds for any
    sequence of updates folded over a state, and a $N69 report maps status
    value 2 to Transmit and every other i32 status value to Standby. -/
theorem power_state_reachability :
    (∀ (s : RadarState) (line : List Char),
      (s.update_from_response line).2.power = s.power ∨
      (s.update_from_response line).2.power = PowerState.Standby ∨
      (s.update_from_response line).2.power = PowerState.Transmit) ∧
    (∀ (lines : List (List Char)) (s : RadarState),
      (lines.foldl (fun st l => (st.update_from_response l).2) s).power = s.power ∨
      (lines.foldl (fun st l => (st.update_from_response l).2) s).power =
        PowerState.Standby ∨
      (lines.foldl (fun st l => (st.update_from_response l).2) s).power =
        PowerState.Transmit) ∧
    (∀ (s : RadarState) (v : Int), -2147483648 ≤ v → v ≤ 2147483647 →
      (s.update_from_response
          (format_command .New 0x69 [v, 0, 0, 60, 300, 0])).2.power =
        (if v = 2 then PowerState.Transmit else PowerState.Standby)) := by
  refine ⟨update_power_step, ?_, ?_⟩
  · intro lines
    induction lines with
    | nil => intro s; left; rfl
    | cons l ls ih =>
      intro s
      rw [List.foldl_cons]
      rcases ih (s.update_from_response l).2 with h | h | h
      · rcases update_power_step s l with h2 | h2 | h2
        · left; rw [h, h2]
        · right; left; rw [h, h2]
        · right; right; rw [h, h2]
      · right; left; exact h
      · right; right; exact h
  · intro s v hv1 hv2
    have hpr := parse_response_format_command .New 0x69 [v, 0, 0, 60, 300, 0]
      (by norm_num) (by decide)
      (by intro x hx
          simp only [List.mem_cons, List.not_mem_nil, or_false] at hx
          rcases hx with rfl | rfl | rfl | rfl | rfl | rfl <;> omega)
    have hst : parse_status_response
        (format_command .New 0x69 [v, 0, 0, 60, 300, 0]) = some (decide (v = 2)) := by
      simp [parse_status_response, hpr]
    simp only [RadarState.update_from_response, hst]
    by_cases hv : v = 2 <;> simp [hv]

theorem power_state_reachability_witness :
    ((RadarState.new.update_from_response "$N69,2,0,0,60,300,0".toList).2.power =
        RadarState.new.power ∨
      (RadarState.new.update_from_response "$N69,2,0,0,60,300,0".toList).2.power =
        PowerState.Standby ∨
      (RadarState.new.update_from_response "$N69,2,0,0,60,300,0".toList).2.power =
        PowerState.Transmit) ∧
    (RadarState.new.update_from_response
        (format_command .New 0x69 [2, 0, 0, 60, 300, 0])).2.power =
      PowerState.Transmit ∧
    (RadarState.new.update_from_response
        (format_command .New 0x69 [1, 0, 0, 60, 300, 0])).2.power =
      PowerState.Standby := by
  refine ⟨power_state_reachability.1 RadarState.new _, ?_, ?_⟩
  · have h := power_state_reachability.2.2 RadarState.new 2 (by norm_num) (by norm_num)
    simpa using h
  · have h := power_state_reachability.2.2 RadarState.new 1 (by norm_num) (by norm_num)
    simpa using h

theorem minFold_spec {α : Type} (key : α → Int) :
    ∀ (xs : List α) (x : α),
      (xs.foldl (fun best y => if key y < key best then y else best) x ∈ x :: xs) ∧
      key (xs.foldl (fun best y => if key y < key best then y else best) x) ≤ key x ∧
      (∀ y ∈ xs,
        key (xs.foldl (fun best y => if key y < key best then y else best) x) ≤ key y) := by
  intro xs
  induction xs with
  | nil =>
    intro x
    exact ⟨List.mem_cons_self x [], le_refl _, by simp⟩
  | cons z zs ih =>
    intro x
    rw [List.foldl_cons]
    obtain ⟨hmem, hle, hall⟩ := ih (if key z < key x then z else x)
    have hx2le : key (if key z < key x then z else x) ≤ key x ∧
        key (if key z < key x then z else x) ≤ key z := by
      split_ifs with h
      · exact ⟨le_of_lt h, le_refl _⟩
      · exact ⟨le_refl _, le_of_not_lt h⟩
    have hx2mem : (if key z < key x then z else x) = x ∨
        (if key z < key x then z else x) = z := by
      split_ifs <;> simp
    refine ⟨?_, le_trans hle hx2le.1, ?_⟩
    · rcases List.mem_cons.mp hmem with h | h
      · rcases hx2mem with h2 | h2 <;> rw [h, h2]
        · exact List.mem_cons_self _ _
        · simp
      · simp [List.mem_cons_of_mem, h]
    · intro y hy
      rcases List.mem_cons.mp hy with rfl | hy2
      · exact le_trans hle hx2le.2
      · exact hall y hy2

theorem minByKeyFirst_spec {α : Type} (key : α → Int) (l : List α) (x : α)
    (h : minByKeyFirst key l = some x) : x ∈ l ∧ ∀ y ∈ l, key x ≤ key y := by
  cases l with
  | nil => cases h
  | cons a as =>
    simp only [minByKeyFirst, Option.some.injEq] at h
    subst h
    obtain ⟨hmem, hle, hall⟩ := minFold_spec key as a
    refine ⟨hmem, ?_⟩
    intro y hy
    rcases List.mem_cons.mp hy with rfl | hy2
    · exact hle
    · exact hall y hy2

theorem range_table_lookup : ∀ p ∈ RANGE_TABLE, range_index_to_meters p.1 = some p.2 := by
  intro p hp
  fin_cases hp <;> decide

theorem range_table_meters_bounds : ∀ p ∈ RANGE_TABLE, 116 ≤ p.2 ∧ p.2 ≤ 88896 := by
  intro p hp
  fin_cases hp <;> norm_num

theorem i32wrap_eq_self {x : Int} (h1 : -2147483648 ≤ x) (h2 : x ≤ 2147483647) :
    i32wrap x = x := by
  unfold i32wrap
  have hmod : (x + 2147483648) % 4294967296 = x + 2147483648 :=
    Int.emod_eq_of_lt (by omega) (by omega)
  omega

theorem i32abs_eq_abs {x : Int} (h1 : -2147483647 ≤ x) (h2 : x ≤ 2147483647) :
    i32abs x = |x| := by
  unfold i32abs
  exact i32wrap_eq_self (le_trans (by norm_num) (abs_nonneg x)) (abs_le.mpr ⟨h1, h2⟩)

set_option maxRecDepth 8000 in
/-- C4 is false as stated for extreme negative meters: at i32::MIN the i32
    subtraction meters_entry − meters wraps, inverting the ordering of the
    keys, and the function selects index 15 (88896 m) although 116 m is
    strictly closer, so the result is not the nearest supported range. -/
theorem nearest_range_counterexample :
    range_index_to_meters (meters_to_range_index (-2147483648)) = some 88896 ∧
    ((116 : Int) - (-2147483648)).natAbs < ((88896 : Int) - (-2147483648)).natAbs ∧
    (116 : Int) ∈ RANGE_TABLE.map (fun p => p.2) := by
  refine ⟨by decide, by decide, by decide⟩

set_option maxRecDepth 8000 in
/-- C4 (amended): for every meters value m in the overflow-free i32 range
    −2^31 + 88897 ≤ m ≤ 2^31 − 1, meters_to_range_index followed by
    range_index_to_meters returns an entry of the range table minimising
    |entry − m|; the three concrete values of the claim hold as stated. -/
theorem meters_to_range_index_nearest :
    (∀ m : Int, -2147394751 ≤ m → m ≤ 2147483647 →
      ∃ r, range_index_to_meters (meters_to_range_index m) = some r ∧
        r ∈ RANGE_TABLE.map (fun p => p.2) ∧
        ∀ p ∈ RANGE_TABLE, (r - m).natAbs ≤ (p.2 - m).natAbs) ∧
    meters_to_range_index 1852 = 4 ∧
    range_index_to_meters 21 = some 116 ∧
    range_index_to_meters 19 = some 66672 := by
  refine ⟨?_, by decide, by decide, by decide⟩
  intro m hm1 hm2
  have hkey : ∀ p ∈ RANGE_TABLE, i32abs (i32wrap (p.2 - m)) = |p.2 - m| := by
    intro p hp
    have hb := range_table_meters_bounds p hp
    rw [i32wrap_eq_self (by omega) (by omega)]
    exact i32abs_eq_abs (by omega) (by omega)
  cases hmin : minByKeyFirst (fun p => i32abs (i32wrap (p.2 - m))) RANGE_TABLE with
  | none =>
    unfold RANGE_TABLE at hmin
    simp only [minByKeyFirst] at hmin
    exact Option.noConfusion hmin
  | some q =>
    obtain ⟨hqmem, hqmin⟩ := minByKeyFirst_spec _ _ _ hmin
    have hm2i : meters_to_range_index m = q.1 := by
      unfold meters_to_range_index
      rw [hmin]
    refine ⟨q.2, ?_, List.mem_map.mpr ⟨q, hqmem, rfl⟩, ?_⟩
    · rw [hm2i]
      exact range_table_lookup q hqmem
    · intro p hp
      have h1 := hqmin p hp
      rw [hkey q hqmem, hkey p hp, Int.abs_eq_natAbs, Int.abs_eq_natAbs] at h1
      exact_mod_cast h1

theorem meters_to_range_index_nearest_witness :
    ∃ r, range_index_to_meters (meters_to_range_index 1852) = some r ∧
      r ∈ RANGE_TABLE.map (fun p => p.2) ∧
      ∀ p ∈ RANGE_TABLE, (r - 1852).natAbs ≤ (p.2 - 1852).natAbs :=
  meters_to_range_index_nearest.1 1852 (by norm_num) (by norm_num)

/-- C9: parse_response silently skips every comma-separated argument that
    does not parse as a base-10 i32, keeping the successfully parsed
    arguments in order (later arguments shift into the vacated positions);
    shown for an arbitrary ASCII whitespace-free argument tail after a $N69
    header, for the argument list of every successful parse, and for the
    concrete example "$N69,2,x,3" which yields args [2, 3]. -/
theorem parse_response_skips_malformed_args :
    (∀ s : List Char, (∀ c ∈ s, c.toNat < 128 ∧ isRustWs c = false) →
      parse_response ('$' :: 'N' :: '6' :: '9' :: ',' :: s) =
        some (CommandMode.New, 0x69, (splitOnChar ',' s).filterMap parseI32)) ∧
    (∀ (line : List Char) (m : CommandMode) (id : Nat) (args : List Int),
      parse_response line = some (m, id, args) →
      ∃ argpart : List Char,
        args = (splitOnChar ',' argpart).filterMap fun a => parseI32 (trimWs a)) ∧
    parse_response "$N69,2,x,3".toList = some (CommandMode.New, 0x69, [2, 3]) := by
  refine ⟨?_, ?_, by decide⟩
  · intro s hs
    have hnws : ∀ c ∈ ('$' :: 'N' :: '6' :: '9' :: ',' :: s), isRustWs c = false := by
      intro c hc
      simp only [List.mem_cons] at hc
      rcases hc with rfl | rfl | rfl | rfl | rfl | hc
      · decide
      · decide
      · decide
      · decide
      · decide
      · exact (hs c hc).2
    have htrim := trimWs_eq_self hnws
    unfold parse_response
    split
    · rename_i m rest heq
      rw [htrim] at heq
      injection heq with h1 heq
      injection heq with h2 h3
      subst h2
      subst h3
      rw [if_neg (by simp : ¬('6' :: '9' :: ',' :: s) = [])]
      have hcm : charToMode 'N' = some CommandMode.New := by decide
      have htake : List.takeWhile (fun c => decide (c ≠ ',')) ('6' :: '9' :: ',' :: s) =
          ['6', '9'] := by
        simp
      have hdrop : List.dropWhile (fun c => decide (c ≠ ',')) ('6' :: '9' :: ',' :: s) =
          ',' :: s := by
        simp
      have hhex : parseU8Hex ['6', '9'] = some 0x69 := by decide
      have hargs : (splitOnChar ',' s).filterMap (fun a => parseI32 (trimWs a)) =
          (splitOnChar ',' s).filterMap parseI32 :=
        filterMap_congr_mem fun p hp => by
          rw [trimWs_eq_self fun c hc => (hs c (mem_of_mem_splitOnChar hp hc)).2]
      simp only [hcm, htake, hdrop, hhex, hargs]
    · rename_i hne
      exact absurd htrim (hne _ _)
  · intro line m id args h
    unfold parse_response at h
    split at h
    · rename_i m2 rest heq
      split at h
      · exact absurd h (by simp)
      · split at h
        · exact absurd h (by simp)
        · rename_i mode hcm
          split at h
          · exact absurd h (by simp)
          · rename_i cmdId hhex
            simp only [Option.some.injEq, Prod.mk.injEq] at h
            obtain ⟨hm, hid, hargs⟩ := h
            cases hdw : rest.dropWhile (fun c => decide (c ≠ ',')) with
            | nil =>
              rw [hdw] at hargs
              refine ⟨[], ?_⟩
              rw [← hargs]
              decide
            | cons c0 argstr =>
              rw [hdw] at hargs
              exact ⟨argstr, hargs.symm⟩
    · exact absurd h (by simp)

theorem parse_response_skips_malformed_args_witness :
    parse_response ('$' :: 'N' :: '6' :: '9' :: ',' :: "2,x,3".toList) =
      some (CommandMode.New, 0x69, (splitOnChar ',' "2,x,3".toList).filterMap parseI32) :=
  parse_response_skips_malformed_args.1 "2,x,3".toList (by decide)
